import Mathlib

/-!
A verification development for the hardware-renderer texture cache and batch
renderer of the duckstation GPU core, shallowly embedded from
`src/core/gpu_hw_texture_cache.h`, `src/core/gpu_hw_texture_cache.cpp` and
`src/core/gpu_hw.h`.  Machine integers are embedded as `Nat` (the C++ values
involved are small and unsigned; overflow never occurs on the paths modelled,
masks are written explicitly where the source masks).  Heap pointers to
`Source` objects are embedded as numeric identifiers handed out by a counter,
and the intrusive doubly-linked per-page lists become Lean lists of those
identifiers in the same (append-at-tail) order.
-/

namespace DuckStation

/-- Modelled from the spec: the video-memory image is a fixed grid of 16-bit
pixels, pages are 64x256 and page indices run 0..31 (16 pages wide, 2 pages
high), giving a 1024x512 grid.  The constant itself lives in `gpu_types.h`,
which is not among the sources here. -/
def VRAM_WIDTH : Nat := 1024

/-- Modelled from the spec: see `VRAM_WIDTH`. -/
def VRAM_HEIGHT : Nat := 512

/-- Modelled from the spec: the fixed texture-page dimension.  The spec gives
the pixel-footprint widths 64/128/256 for the three depth modes, which the
source computes as `TEXTURE_PAGE_WIDTH` shifted right by 2/1/0; the constant
itself lives in the missing `gpu_types.h`. -/
def TEXTURE_PAGE_WIDTH : Nat := 256

/-- Modelled from the spec: see `TEXTURE_PAGE_WIDTH`; the decode height equals
one page height. -/
def TEXTURE_PAGE_HEIGHT : Nat := 256

/-- Texture depth modes.  The declaration lives in the missing `gpu_types.h`,
but the constructor order 0..3 is pinned by the mode-name table in
`SourceToString` (gpu_hw_texture_cache.cpp) and the comparisons
`mode < GPUTextureMode::Direct16Bit`; `Disabled` is the out-of-band value used
by `GPU_HW::BatchConfig` (gpu_hw.h). -/
inductive GPUTextureMode
  | Palette4Bit
  | Palette8Bit
  | Direct16Bit
  | Reserved_Direct16Bit
  | Disabled
deriving DecidableEq

/-- The numeric value of the mode (`static_cast<u8>(mode)` in the source). -/
def GPUTextureMode.toNat : GPUTextureMode → Nat
  | .Palette4Bit => 0
  | .Palette8Bit => 1
  | .Direct16Bit => 2
  | .Reserved_Direct16Bit => 3
  | .Disabled => 4

/-- Modelled from the spec: the palette register ("palette register (base
X/Y)").  Its declaration lives in the missing `gpu_types.h`; the console CLUT
attribute packs a 6-bit X base in units of 16 pixels and a 9-bit Y row into the
low 15 bits. -/
structure GPUTexturePaletteReg where
  bits : Nat
deriving DecidableEq

/-- Modelled from the spec: palette base X in pixels (6-bit field, x16). -/
def GPUTexturePaletteReg.GetXBase (p : GPUTexturePaletteReg) : Nat :=
  (p.bits % 64) * 16

/-- Modelled from the spec: palette base Y in rows (9-bit field). -/
def GPUTexturePaletteReg.GetYBase (p : GPUTexturePaletteReg) : Nat :=
  (p.bits / 64) % 512

/-- Modelled from the spec: the palette footprint is "1 row x palette width";
a 4-bit palette has 16 entries and an 8-bit palette 256 entries, matching the
header comment "2+4 pages in P8 mode, 1+1 pages in P4 mode"
(gpu_hw_texture_cache.h). -/
def GPUTexturePaletteReg.GetWidth (mode : GPUTextureMode) : Nat :=
  if mode = .Palette4Bit then 16 else 256

namespace GPUTextureCache

/-- gpu_hw_texture_cache.h: `VRAM_PAGE_WIDTH = 64`. -/
def VRAM_PAGE_WIDTH : Nat := 64

/-- gpu_hw_texture_cache.h: `VRAM_PAGE_HEIGHT = 256`. -/
def VRAM_PAGE_HEIGHT : Nat := 256

/-- gpu_hw_texture_cache.h: `VRAM_PAGES_WIDE = VRAM_WIDTH / VRAM_PAGE_WIDTH`. -/
def VRAM_PAGES_WIDE : Nat := VRAM_WIDTH / VRAM_PAGE_WIDTH

/-- gpu_hw_texture_cache.h: `VRAM_PAGES_HIGH = VRAM_HEIGHT / VRAM_PAGE_HEIGHT`. -/
def VRAM_PAGES_HIGH : Nat := VRAM_HEIGHT / VRAM_PAGE_HEIGHT

/-- gpu_hw_texture_cache.h: `NUM_PAGES = VRAM_PAGES_WIDE * VRAM_PAGES_HIGH`. -/
def NUM_PAGES : Nat := VRAM_PAGES_WIDE * VRAM_PAGES_HIGH

/-- gpu_hw_texture_cache.h: `MAX_PAGE_REFS_PER_SOURCE = 6` ("4 pages in C16
mode, 2+4 pages in P8 mode, 1+1 pages in P4 mode"). -/
def MAX_PAGE_REFS_PER_SOURCE : Nat := 6

/-- gpu_hw_texture_cache.h: `PageIndex(px, py) = py * VRAM_PAGES_WIDE + px`. -/
def PageIndex (px py : Nat) : Nat := py * VRAM_PAGES_WIDE + px

/-- gpu_hw_texture_cache.cpp: `PageStartX(pn)`. -/
def PageStartX (pn : Nat) : Nat := (pn % VRAM_PAGES_WIDE) * VRAM_PAGE_WIDTH

/-- gpu_hw_texture_cache.cpp: `PageStartY(pn)`. -/
def PageStartY (pn : Nat) : Nat := (pn / VRAM_PAGES_WIDE) * VRAM_PAGE_HEIGHT

/-- gpu_hw_texture_cache.cpp: `WidthForMode(mode)`, i.e.
`TEXTURE_PAGE_WIDTH >> ((mode < Direct16Bit) ? (2 - u8(mode)) : 0)`. -/
def WidthForMode (mode : GPUTextureMode) : Nat :=
  TEXTURE_PAGE_WIDTH >>> (if mode.toNat < GPUTextureMode.Direct16Bit.toNat then 2 - mode.toNat else 0)

/-- gpu_hw_texture_cache.cpp: the sequence of page numbers `LoopPages(x, y,
width, height, f)` passes to `f`, in call order.  The source computes
`start_x/start_y/end_x/end_y` by dividing the page dimensions into the
rectangle's start and end coordinates; the inner loop body is `f(page_number);
y_page_number++;` where `page_number` is only advanced by `VRAM_PAGES_WIDE`
per outer (row) iteration, so every call in one row passes the row's first
page number (the incremented `y_page_number` is never read). -/
def LoopPagesList (x y width height : Nat) : List Nat :=
  let start_x := x / VRAM_PAGE_WIDTH
  let start_y := y / VRAM_PAGE_HEIGHT
  let end_x := (x + (width - 1)) / VRAM_PAGE_WIDTH
  let end_y := (y + (height - 1)) / VRAM_PAGE_HEIGHT
  (List.range (end_y + 1 - start_y)).flatMap (fun ry =>
    (List.range (end_x + 1 - start_x)).map (fun _cx =>
      PageIndex start_x (start_y + ry)))

/-- Following the spec's words, for comparison with `LoopPagesList`: the
covering set of pages of an axis-aligned rectangle, i.e. every page whose
64x256 tile intersects the rectangle, enumerated from the rectangle's start
and end coordinates divided by the page dimensions. -/
def CoveringPagesList (x y width height : Nat) : List Nat :=
  let start_x := x / VRAM_PAGE_WIDTH
  let start_y := y / VRAM_PAGE_HEIGHT
  let end_x := (x + (width - 1)) / VRAM_PAGE_WIDTH
  let end_y := (y + (height - 1)) / VRAM_PAGE_HEIGHT
  (List.range (end_y + 1 - start_y)).flatMap (fun ry =>
    (List.range (end_x + 1 - start_x)).map (fun cx =>
      PageIndex (start_x + cx) (start_y + ry)))

/-- gpu_hw_texture_cache.h: `SourceKey` = {page, mode, palette}; `operator==`
is a `memcmp` of the three fields, i.e. structural equality. -/
structure SourceKey where
  page : Nat
  mode : GPUTextureMode
  palette : GPUTexturePaletteReg
deriving DecidableEq

/-- gpu_hw_texture_cache.cpp, `CreateSource`: the `add_page_ref` lambda
appends `pn` to the recorded page numbers unless it is already present
("Don't double up references"). -/
def addPageRef (refs : List Nat) (pn : Nat) : List Nat :=
  if pn ∈ refs then refs else refs ++ [pn]

/-- gpu_hw_texture_cache.cpp, `CreateSource`: the page numbers a new source
for `key` is registered under, in registration order: `LoopPages` over the
pixel rectangle (page start, `WidthForMode(key.mode)` by
`TEXTURE_PAGE_HEIGHT`), then — for paletted modes
(`key.mode < Direct16Bit`) — `LoopPages` over the palette row
(`GetXBase/GetYBase`, `GetWidth(key.mode)` by 1), deduplicated by
`add_page_ref`. -/
def sourcePageRefs (key : SourceKey) : List Nat :=
  let pixel := LoopPagesList (PageStartX key.page) (PageStartY key.page)
    (WidthForMode key.mode) TEXTURE_PAGE_HEIGHT
  let all := if key.mode.toNat < GPUTextureMode.Direct16Bit.toNat then
      pixel ++ LoopPagesList key.palette.GetXBase key.palette.GetYBase
        (GPUTexturePaletteReg.GetWidth key.mode) 1
    else pixel
  all.foldl addPageRef []

/-- Following the spec's words, for comparison with `sourcePageRefs`: the
pages of a key's pixel-data footprint (page width 64/128/256 by one page
height) union its palette footprint (one row by the palette width, for
paletted modes). -/
def specSourcePages (key : SourceKey) : List Nat :=
  let pixel := CoveringPagesList (PageStartX key.page) (PageStartY key.page)
    (WidthForMode key.mode) TEXTURE_PAGE_HEIGHT
  let all := if key.mode.toNat < GPUTextureMode.Direct16Bit.toNat then
      pixel ++ CoveringPagesList key.palette.GetXBase key.palette.GetYBase
        (GPUTexturePaletteReg.GetWidth key.mode) 1
    else pixel
  all.foldl addPageRef []

/-- gpu_hw_texture_cache.h: `Source` = key + registered page references (the
decoded GPU texture itself is opaque to the cache logic and omitted;
`num_page_refs` is `pageRefs.length`). -/
structure Source where
  key : SourceKey
  pageRefs : List Nat
deriving DecidableEq

/-- The cache state: `nextId` is the allocator counter standing in for heap
addresses of `Source` objects; `sources` is the set of live sources in
creation order, keyed by identifier; `pageSources` embeds the
`m_page_sources` array of `NUM_PAGES` intrusive lists, each list holding the
identifiers of the sources whose node sits in it, head first. -/
structure CacheState where
  nextId : Nat
  sources : List (Nat × Source)
  pageSources : List (List Nat)
deriving DecidableEq

/-- The freshly constructed cache: `m_page_sources` zero-initialised. -/
def initState : CacheState :=
  ⟨0, [], List.replicate NUM_PAGES []⟩

/-- The intrusive list of page `pn` (out-of-range reads yield the empty
list; the source indexes `m_page_sources` only with `pn < NUM_PAGES`). -/
def pageList (st : CacheState) (pn : Nat) : List Nat :=
  st.pageSources.getD pn []

/-- Dereference a source identifier (a live `Source*`). -/
def findSource (st : CacheState) (id : Nat) : Option Source :=
  (st.sources.find? (fun p => p.1 = id)).map Prod.snd

/-- The registered page references of a live source (empty for a dangling
identifier, which never occurs under `WF`). -/
def refsOf (st : CacheState) (id : Nat) : List Nat :=
  match findSource st id with
  | some s => s.pageRefs
  | none => []

/-- gpu_hw_texture_cache.cpp: `ListAppend` puts the item's node at the tail
of the page's list. -/
def listAppend (ps : List (List Nat)) (pn id : Nat) : List (List Nat) :=
  ps.set pn ((ps.getD pn []) ++ [id])

/-- gpu_hw_texture_cache.cpp: `ListUnlink` applied to every node of a source,
as done by `InvalidatePage`: the source's identifier is removed from the list
of each page it is registered under. -/
def listUnlink (ps : List (List Nat)) (id : Nat) (refs : List Nat) : List (List Nat) :=
  refs.foldl (fun acc pn => acc.set pn ((acc.getD pn []).erase id)) ps

/-- gpu_hw_texture_cache.cpp: `InvalidatePage(pn)` walks page `pn`'s list;
for each source found there it unlinks all of that source's page references
from their lists and frees the source, then nulls the page's head and tail
pointers. -/
def invalidatePage (st : CacheState) (pn : Nat) : CacheState :=
  let victims := pageList st pn
  let ps := victims.foldl (fun acc id => listUnlink acc id (refsOf st id)) st.pageSources
  { nextId := st.nextId
    sources := st.sources.filter (fun p => p.1 ∉ victims)
    pageSources := ps.set pn [] }

/-- gpu_hw_texture_cache.cpp: `InvalidatePages(x, y, width, height)` calls
`InvalidatePage` once per `LoopPages` callback. -/
def invalidatePages (st : CacheState) (x y width height : Nat) : CacheState :=
  (LoopPagesList x y width height).foldl invalidatePage st

/-- gpu_hw_texture_cache.cpp: `Clear()` invalidates every page in order. -/
def clear (st : CacheState) : CacheState :=
  (List.range NUM_PAGES).foldl invalidatePage st

/-- gpu_hw_texture_cache.cpp: `CreateSource(key)`.  `allocOk` stands for the
device texture allocation (`FetchTexture`) succeeding; on failure the
function logs and returns null before touching any cache structure.  On
success the new source is appended to the list of every page in
`sourcePageRefs key`, in that order. -/
def createSource (st : CacheState) (key : SourceKey) (allocOk : Bool) :
    Option Nat × CacheState :=
  if !allocOk then (none, st)
  else
    let id := st.nextId
    let refs := sourcePageRefs key
    let ps := refs.foldl (fun acc pn => listAppend acc pn id) st.pageSources
    (some id, ⟨st.nextId + 1, st.sources ++ [(id, ⟨key, refs⟩)], ps⟩)

/-- The page holding the base coordinate of a key's palette row. -/
def palPage (key : SourceKey) : Nat :=
  PageIndex (key.palette.GetXBase / VRAM_PAGE_WIDTH) (key.palette.GetYBase / VRAM_PAGE_HEIGHT)

/-- The invariant tying the embedded cache state together: the page lists are
exactly the live sources filtered by page reference (in creation order),
identifiers are unique and below the allocation counter, every source's
recorded references are the ones `CreateSource` computes for its key, keys
are in range, and no two live sources share a key. -/
structure WF (st : CacheState) : Prop where
  plen : st.pageSources.length = NUM_PAGES
  idlt : ∀ p ∈ st.sources, p.1 < st.nextId
  nodupIds : (st.sources.map Prod.fst).Nodup
  refsKey : ∀ p ∈ st.sources, p.2.pageRefs = sourcePageRefs p.2.key
  keyValid : ∀ p ∈ st.sources, p.2.key.page < NUM_PAGES
  keyUnique : ∀ p ∈ st.sources, ∀ q ∈ st.sources, p.2.key = q.2.key → p = q
  lists : ∀ pn, pageList st pn =
    (st.sources.filter (fun p => pn ∈ p.2.pageRefs)).map Prod.fst

/-- gpu_hw_texture_cache.cpp: the scan loop of `LookupSource(key)`: walk page
`key.page`'s list head-first and return the first source whose key equals
`key`. -/
def scanPage (st : CacheState) (key : SourceKey) : Option Nat :=
  (pageList st key.page).find? (fun id =>
    match findSource st id with
    | some s => s.key = key
    | none => false)

/-- gpu_hw_texture_cache.cpp: `LookupSource(key)`: return the scan hit if
any, else `CreateSource(key)`. -/
def lookupSource (st : CacheState) (key : SourceKey) (allocOk : Bool) :
    Option Nat × CacheState :=
  match scanPage st key with
  | some id => (some id, st)
  | none => createSource st key allocOk

end GPUTextureCache

/-- Modelled from the spec: conversion of a console 5-5-5-1 pixel channel to
8 bits (`gpu_types.h` is not among the sources; the spec fixes 0 -> 0 and a
full channel -> 255, done by bit replication). -/
def VRAMConvert5To8 (c : Nat) : Nat := (c <<< 3) ||| (c >>> 2)

/-- Modelled from the spec: `VRAMRGBA5551ToRGBA8888` of the missing
`gpu_types.h`: each palette/direct pixel converts from the console's 5-5-5-1
format to 8-bit-per-channel RGBA packed little-endian (R in the low byte);
the alpha bit maps to 255/0. -/
def VRAMRGBA5551ToRGBA8888 (c : Nat) : Nat :=
  let r := VRAMConvert5To8 (c &&& 31)
  let g := VRAMConvert5To8 ((c >>> 5) &&& 31)
  let b := VRAMConvert5To8 ((c >>> 10) &&& 31)
  let a := if (c >>> 15) &&& 1 = 1 then 255 else 0
  r ||| (g <<< 8) ||| (b <<< 16) ||| (a <<< 24)

namespace GPUTextureCache

/-- Video memory as a word-indexed image: index `y * VRAM_WIDTH + x` holds a
16-bit value (`g_vram`). -/
def VRAM := Nat → Nat

/-- gpu_hw_texture_cache.cpp: `VRAMPagePointer(pn)` as a word offset into
`g_vram`. -/
def VRAMPageOffset (pn : Nat) : Nat :=
  PageStartY pn * VRAM_WIDTH + PageStartX pn

/-- Word offset of the palette row (`&g_vram[GetYBase() * VRAM_WIDTH +
GetXBase()]` in `DecodeTexture`). -/
def paletteOffset (palette : GPUTexturePaletteReg) : Nat :=
  palette.GetYBase * VRAM_WIDTH + palette.GetXBase

/-- gpu_hw_texture_cache.cpp: one destination row of `DecodeTexture4`: each
source word (64 per row) yields four texels via nibble-indexed palette
lookup, low nibble first (`pp & 0x0F`, `(pp >> 4) & 0x0F`, `(pp >> 8) &
0x0F`, `pp >> 12`). -/
def decodeRow4 (vram : VRAM) (rowBase palBase : Nat) : List Nat :=
  (List.range (TEXTURE_PAGE_WIDTH / 4)).flatMap (fun k =>
    let pp := vram (rowBase + k)
    [VRAMRGBA5551ToRGBA8888 (vram (palBase + (pp &&& 0x0F))),
     VRAMRGBA5551ToRGBA8888 (vram (palBase + ((pp >>> 4) &&& 0x0F))),
     VRAMRGBA5551ToRGBA8888 (vram (palBase + ((pp >>> 8) &&& 0x0F))),
     VRAMRGBA5551ToRGBA8888 (vram (palBase + (pp >>> 12)))])

/-- gpu_hw_texture_cache.cpp: `DecodeTexture4`: `TEXTURE_PAGE_HEIGHT` rows,
the source pointer advancing by `VRAM_WIDTH` words per row. -/
def DecodeTexture4 (vram : VRAM) (pageBase palBase : Nat) : List (List Nat) :=
  (List.range TEXTURE_PAGE_HEIGHT).map (fun y =>
    decodeRow4 vram (pageBase + y * VRAM_WIDTH) palBase)

/-- gpu_hw_texture_cache.cpp: one destination row of `DecodeTexture8`: each
source word (128 per row) yields two texels via byte-indexed palette lookup,
low byte first (`pp & 0xFF`, `pp >> 8`). -/
def decodeRow8 (vram : VRAM) (rowBase palBase : Nat) : List Nat :=
  (List.range (TEXTURE_PAGE_WIDTH / 2)).flatMap (fun k =>
    let pp := vram (rowBase + k)
    [VRAMRGBA5551ToRGBA8888 (vram (palBase + (pp &&& 0xFF))),
     VRAMRGBA5551ToRGBA8888 (vram (palBase + (pp >>> 8)))])

/-- gpu_hw_texture_cache.cpp: `DecodeTexture8`. -/
def DecodeTexture8 (vram : VRAM) (pageBase palBase : Nat) : List (List Nat) :=
  (List.range TEXTURE_PAGE_HEIGHT).map (fun y =>
    decodeRow8 vram (pageBase + y * VRAM_WIDTH) palBase)

/-- gpu_hw_texture_cache.cpp: one destination row of `DecodeTexture16`: a
1:1 texel copy through the colour conversion. -/
def decodeRow16 (vram : VRAM) (rowBase : Nat) : List Nat :=
  (List.range TEXTURE_PAGE_WIDTH).map (fun x =>
    VRAMRGBA5551ToRGBA8888 (vram (rowBase + x)))

/-- gpu_hw_texture_cache.cpp: `DecodeTexture16`. -/
def DecodeTexture16 (vram : VRAM) (pageBase : Nat) : List (List Nat) :=
  (List.range TEXTURE_PAGE_HEIGHT).map (fun y =>
    decodeRow16 vram (pageBase + y * VRAM_WIDTH))

/-- gpu_hw_texture_cache.cpp: `DecodeTexture(page, palette, mode, ...)`
dispatching on the mode (the two direct cases share `DecodeTexture16`; the
`Disabled` value never reaches decoding — `DefaultCaseIsUnreachable`, mapped
to the empty image). -/
def DecodeTexture (vram : VRAM) (page : Nat) (palette : GPUTexturePaletteReg)
    (mode : GPUTextureMode) : List (List Nat) :=
  match mode with
  | .Palette4Bit => DecodeTexture4 vram (VRAMPageOffset page) (paletteOffset palette)
  | .Palette8Bit => DecodeTexture8 vram (VRAMPageOffset page) (paletteOffset palette)
  | .Direct16Bit => DecodeTexture16 vram (VRAMPageOffset page)
  | .Reserved_Direct16Bit => DecodeTexture16 vram (VRAMPageOffset page)
  | .Disabled => []

/-- Video memory for the concrete decode check of the spec: every word is 0
— so a page read in 4-bit mode is filled entirely with palette index 0 —
except the palette row's entry 0 at (0, 256) (word offset 262144), which
holds 0x8000 (5-5-5-1 with the alpha bit set and RGB = 0). -/
def testVRAM : VRAM := fun i => if i = 262144 then 0x8000 else 0

/-- Palette register whose base is (0, 256), pointing at the 0x8000 entry of
`testVRAM`. -/
def testPalette : GPUTexturePaletteReg := ⟨16384⟩

end GPUTextureCache

namespace GPU_HW

/-- gpu_hw.h: `BatchRenderMode`. -/
inductive BatchRenderMode
  | TransparencyDisabled
  | TransparentAndOpaque
  | OnlyOpaque
  | OnlyTransparent
deriving DecidableEq

/-- The console transparency/blend modes.  The declaration lives in the
missing `gpu_types.h`; the members used by gpu_hw.h are
`BackgroundMinusForeground` (one of the four console blend equations) and the
out-of-band `Disabled`. -/
inductive GPUTransparencyMode
  | HalfBackgroundPlusHalfForeground
  | BackgroundPlusForeground
  | BackgroundMinusForeground
  | BackgroundPlusQuarterForeground
  | Disabled
deriving DecidableEq

/-- gpu_hw.h: `MAX_BATCH_VERTEX_COUNTER_IDS = 65536 - 2`. -/
def MAX_BATCH_VERTEX_COUNTER_IDS : Nat := 65536 - 2

/-- gpu_hw.h: `BatchConfig` (the flag fields not consulted by the embedded
functions are carried for completeness). -/
structure BatchConfig where
  texture_mode : GPUTextureMode := .Disabled
  transparency_mode : GPUTransparencyMode := .Disabled
  dithering : Bool := false
  interlacing : Bool := false
  set_mask_while_drawing : Bool := false
  check_mask_before_draw : Bool := false
  use_depth_buffer : Bool := false
deriving DecidableEq

/-- gpu_hw.h: `BatchConfig::GetRenderMode()`: `TransparencyDisabled` when the
transparency mode is `Disabled`, otherwise `TransparentAndOpaque`. -/
def BatchConfig.GetRenderMode (b : BatchConfig) : BatchRenderMode :=
  if b.transparency_mode = .Disabled then .TransparencyDisabled
  else .TransparentAndOpaque

/-- gpu_hw.h: `GPU_HW::NeedsTwoPassRendering()`, with
`m_supports_dual_source_blend` passed explicitly: texturing is on, and either
the blend mode is background-minus-foreground, or the device lacks
dual-source blend and any blending is on. -/
def NeedsTwoPassRendering (batch : BatchConfig) (supports_dual_source_blend : Bool) : Bool :=
  batch.texture_mode != .Disabled &&
    (batch.transparency_mode == .BackgroundMinusForeground ||
      (!supports_dual_source_blend && batch.transparency_mode != .Disabled))

/-- Modelled from the spec: the flush path of the batch renderer
(`GPU_HW::FlushRender`, whose translation unit is not among the sources)
issues, for a non-empty batch, two draws restricted to `OnlyOpaque` and then
`OnlyTransparent` when two-pass rendering is needed, and otherwise a single
draw with the batch's render mode. -/
def drawPasses (batch : BatchConfig) (supports_dual_source_blend : Bool) :
    List BatchRenderMode :=
  if NeedsTwoPassRendering batch supports_dual_source_blend then
    [.OnlyOpaque, .OnlyTransparent]
  else
    [batch.GetRenderMode]

/-- gpu_hw.h: `GetCurrentNormalizedVertexDepth() = 1.0f - (m_current_depth /
65535.0f)`, embedded over the exact rationals (the float expression is exact
up to rounding of the division; the claims' order and range facts are those
of the exact value). -/
def GetCurrentNormalizedVertexDepth (current_depth : Nat) : ℚ :=
  1 - (current_depth : ℚ) / 65535

/-- Modelled from the spec: the per-primitive depth counter
(`m_current_depth`) advances by one for each primitive admitted after a
reset, so primitive `n` of a reset-free sequence starting at counter `c0`
draws with counter `c0 + n` (the increment lives in the missing
`gpu_hw.cpp`). -/
def depthOfPrimitive (c0 n : Nat) : ℚ :=
  GetCurrentNormalizedVertexDepth (c0 + n)

end GPU_HW

/-! ### List helper lemmas -/

namespace GPUTextureCache

theorem getD_set_self {α : Type} (l : List α) (i : Nat) (a d : α) (h : i < l.length) :
    (l.set i a).getD i d = a := by
  simp [List.getD, List.getElem?_set_self, h]

theorem getD_set_ne {α : Type} (l : List α) (i j : Nat) (a d : α) (h : i ≠ j) :
    (l.set i a).getD j d = l.getD j d := by
  simp [List.getD, List.getElem?_set_ne h]

theorem getD_of_le {α : Type} (l : List α) (i : Nat) (d : α) (h : l.length ≤ i) :
    l.getD i d = d := by
  simp [List.getD, List.getElem?_eq_none h]

theorem mem_addPageRef (refs : List Nat) (pn : Nat) : pn ∈ addPageRef refs pn := by
  unfold addPageRef
  split
  · assumption
  · simp

theorem addPageRef_of_mem {refs : List Nat} {pn : Nat} (h : pn ∈ refs) :
    addPageRef refs pn = refs := if_pos h

theorem foldl_addPageRef_absorb (n : Nat) (pn : Nat) (acc : List Nat) (h : pn ∈ acc) :
    (List.replicate n pn).foldl addPageRef acc = acc := by
  induction n with
  | zero => rfl
  | succ m ih => rw [List.replicate_succ, List.foldl_cons, addPageRef_of_mem h, ih]

theorem foldl_addPageRef_replicate (n : Nat) (pn : Nat) (acc : List Nat) :
    (List.replicate (n + 1) pn).foldl addPageRef acc = addPageRef acc pn := by
  rw [List.replicate_succ, List.foldl_cons]
  exact foldl_addPageRef_absorb n pn _ (mem_addPageRef acc pn)

/-! ### Closed form of the page lists -/

theorem LoopPagesList_single_row (x y width height : Nat)
    (hrow : (y + (height - 1)) / VRAM_PAGE_HEIGHT = y / VRAM_PAGE_HEIGHT) :
    LoopPagesList x y width height =
      List.replicate ((x + (width - 1)) / VRAM_PAGE_WIDTH + 1 - x / VRAM_PAGE_WIDTH)
        (PageIndex (x / VRAM_PAGE_WIDTH) (y / VRAM_PAGE_HEIGHT)) := by
  simp only [LoopPagesList]
  rw [hrow]
  have h1 : y / VRAM_PAGE_HEIGHT + 1 - y / VRAM_PAGE_HEIGHT = 1 := by omega
  rw [h1]
  have h2 : List.range 1 = [0] := rfl
  rw [h2]
  simp [List.eq_replicate_iff]

/-- The pixel-rectangle `LoopPages` of `CreateSource` only ever passes the
key's own page number (the start coordinates are page-aligned and the pixel
height is exactly one page, so there is a single row; within the row the
passed page number never advances). -/
theorem pixel_loopPages (p : Nat) (mode : GPUTextureMode) :
    ∃ n : Nat,
      LoopPagesList (PageStartX p) (PageStartY p) (WidthForMode mode) TEXTURE_PAGE_HEIGHT
        = List.replicate (n + 1) p := by
  have hrow : (PageStartY p + (TEXTURE_PAGE_HEIGHT - 1)) / VRAM_PAGE_HEIGHT
      = PageStartY p / VRAM_PAGE_HEIGHT := by
    simp only [PageStartY, VRAM_PAGE_HEIGHT, TEXTURE_PAGE_HEIGHT, VRAM_PAGES_WIDE,
      VRAM_WIDTH, VRAM_PAGE_WIDTH]
    omega
  rw [LoopPagesList_single_row _ _ _ _ hrow]
  have hx : PageStartX p / VRAM_PAGE_WIDTH = p % VRAM_PAGES_WIDE := by
    simp only [PageStartX, VRAM_PAGE_WIDTH, VRAM_PAGES_WIDE, VRAM_WIDTH]
    omega
  have hy : PageStartY p / VRAM_PAGE_HEIGHT = p / VRAM_PAGES_WIDE := by
    simp only [PageStartY, VRAM_PAGE_HEIGHT, VRAM_PAGES_WIDE, VRAM_WIDTH, VRAM_PAGE_WIDTH]
    omega
  have hidx : PageIndex (p % VRAM_PAGES_WIDE) (p / VRAM_PAGES_WIDE) = p := by
    simp only [PageIndex, VRAM_PAGES_WIDE, VRAM_WIDTH, VRAM_PAGE_WIDTH]
    omega
  have hge : PageStartX p / VRAM_PAGE_WIDTH ≤
      (PageStartX p + (WidthForMode mode - 1)) / VRAM_PAGE_WIDTH :=
    Nat.div_le_div_right (Nat.le_add_right _ _)
  refine ⟨(PageStartX p + (WidthForMode mode - 1)) / VRAM_PAGE_WIDTH
    - PageStartX p / VRAM_PAGE_WIDTH, ?_⟩
  rw [hx, hy, hidx]
  congr 1
  rw [← hx]
  omega

/-- The palette-row `LoopPages` of `CreateSource` only ever passes the page
containing the palette's base coordinate (the row height is 1, and within
the row the passed page number never advances). -/
theorem palette_loopPages (x y w : Nat) :
    ∃ n : Nat,
      LoopPagesList x y w 1
        = List.replicate (n + 1) (PageIndex (x / VRAM_PAGE_WIDTH) (y / VRAM_PAGE_HEIGHT)) := by
  have hrow : (y + (1 - 1)) / VRAM_PAGE_HEIGHT = y / VRAM_PAGE_HEIGHT := by norm_num
  rw [LoopPagesList_single_row _ _ _ _ hrow]
  have hge : x / VRAM_PAGE_WIDTH ≤ (x + (w - 1)) / VRAM_PAGE_WIDTH :=
    Nat.div_le_div_right (Nat.le_add_right _ _)
  exact ⟨(x + (w - 1)) / VRAM_PAGE_WIDTH - x / VRAM_PAGE_WIDTH, by congr 1; omega⟩

theorem palPage_lt (key : SourceKey) : palPage key < NUM_PAGES := by
  simp only [palPage, PageIndex, GPUTexturePaletteReg.GetXBase, GPUTexturePaletteReg.GetYBase,
    VRAM_PAGE_WIDTH, VRAM_PAGE_HEIGHT, VRAM_PAGES_WIDE, VRAM_WIDTH, NUM_PAGES,
    VRAM_PAGES_HIGH, VRAM_HEIGHT]
  omega

/-- Closed form of the page set a new source is registered under: because
`LoopPages` only ever passes the start page of each row (see
`LoopPagesList`), a source gets exactly its own page, plus the palette's
base page for paletted modes. -/
theorem sourcePageRefs_eq (key : SourceKey) :
    sourcePageRefs key =
      if key.mode.toNat < GPUTextureMode.Direct16Bit.toNat then
        (if palPage key = key.page then [key.page] else [key.page, palPage key])
      else [key.page] := by
  obtain ⟨n, hpix⟩ := pixel_loopPages key.page key.mode
  simp only [sourcePageRefs]
  by_cases hm : key.mode.toNat < GPUTextureMode.Direct16Bit.toNat
  · obtain ⟨m, hpal⟩ := palette_loopPages key.palette.GetXBase key.palette.GetYBase
      (GPUTexturePaletteReg.GetWidth key.mode)
    rw [if_pos hm, if_pos hm, hpix, hpal, List.foldl_append,
      foldl_addPageRef_replicate, foldl_addPageRef_replicate]
    show addPageRef (addPageRef [] key.page) (palPage key) = _
    rw [show addPageRef [] key.page = [key.page] from rfl]
    unfold addPageRef
    by_cases hq : palPage key = key.page
    · rw [if_pos (by simp [hq]), if_pos hq]
    · rw [if_neg (by simp [hq]), if_neg hq]
      rfl
  · rw [if_neg hm, if_neg hm, hpix, foldl_addPageRef_replicate]
    rfl

theorem sourcePageRefs_head (key : SourceKey) :
    (sourcePageRefs key).head? = some key.page := by
  rw [sourcePageRefs_eq]
  by_cases hm : key.mode.toNat < GPUTextureMode.Direct16Bit.toNat
  · rw [if_pos hm]
    by_cases hq : palPage key = key.page
    · rw [if_pos hq]; rfl
    · rw [if_neg hq]; rfl
  · rw [if_neg hm]; rfl

theorem mem_sourcePageRefs_self (key : SourceKey) : key.page ∈ sourcePageRefs key := by
  rw [sourcePageRefs_eq]
  by_cases hm : key.mode.toNat < GPUTextureMode.Direct16Bit.toNat
  · rw [if_pos hm]
    by_cases hq : palPage key = key.page
    · rw [if_pos hq]; exact List.mem_singleton_self _
    · rw [if_neg hq]; exact List.mem_cons_self _ _
  · rw [if_neg hm]; exact List.mem_singleton_self _

theorem sourcePageRefs_nodup (key : SourceKey) : (sourcePageRefs key).Nodup := by
  rw [sourcePageRefs_eq]
  by_cases hm : key.mode.toNat < GPUTextureMode.Direct16Bit.toNat
  · rw [if_pos hm]
    by_cases hq : palPage key = key.page
    · rw [if_pos hq]; exact List.nodup_singleton _
    · rw [if_neg hq]
      refine List.nodup_cons.mpr ⟨?_, List.nodup_singleton _⟩
      simp only [List.mem_singleton]
      exact fun hc => hq hc.symm
  · rw [if_neg hm]; exact List.nodup_singleton _

theorem sourcePageRefs_lt {key : SourceKey} (hkey : key.page < NUM_PAGES) :
    ∀ q ∈ sourcePageRefs key, q < NUM_PAGES := by
  rw [sourcePageRefs_eq]
  intro q hq
  have hpal := palPage_lt key
  by_cases hm : key.mode.toNat < GPUTextureMode.Direct16Bit.toNat
  · rw [if_pos hm] at hq
    by_cases hp : palPage key = key.page
    · rw [if_pos hp] at hq
      simp at hq
      omega
    · rw [if_neg hp] at hq
      simp at hq
      rcases hq with hq | hq <;> omega
  · rw [if_neg hm] at hq
    simp at hq
    omega

theorem sourcePageRefs_length (key : SourceKey) :
    1 ≤ (sourcePageRefs key).length ∧
      (sourcePageRefs key).length ≤ MAX_PAGE_REFS_PER_SOURCE := by
  rw [sourcePageRefs_eq]
  unfold MAX_PAGE_REFS_PER_SOURCE
  by_cases hm : key.mode.toNat < GPUTextureMode.Direct16Bit.toNat
  · rw [if_pos hm]
    by_cases hq : palPage key = key.page
    · rw [if_pos hq]; simp
    · rw [if_neg hq]; simp
  · rw [if_neg hm]; simp

/-! ### Effect of the list-manipulation folds on a single page's list -/

theorem length_listUnlink (ps : List (List Nat)) (id : Nat) (refs : List Nat) :
    (listUnlink ps id refs).length = ps.length := by
  unfold listUnlink
  induction refs generalizing ps with
  | nil => rfl
  | cons pn rest ih => rw [List.foldl_cons, ih, List.length_set]

theorem length_foldAppend (ps : List (List Nat)) (id : Nat) (refs : List Nat) :
    (refs.foldl (fun acc pn => listAppend acc pn id) ps).length = ps.length := by
  induction refs generalizing ps with
  | nil => rfl
  | cons pn rest ih => rw [List.foldl_cons, ih]; exact List.length_set ..

theorem length_foldUnlink (st : CacheState) (victims : List Nat) (acc : List (List Nat)) :
    (victims.foldl (fun a id => listUnlink a id (refsOf st id)) acc).length = acc.length := by
  induction victims generalizing acc with
  | nil => rfl
  | cons v rest ih => rw [List.foldl_cons, ih, length_listUnlink]

theorem getD_listUnlink (ps : List (List Nat)) (id : Nat) (refs : List Nat)
    (hnd : refs.Nodup) (q : Nat) :
    (listUnlink ps id refs).getD q [] =
      if q ∈ refs then (ps.getD q []).erase id else ps.getD q [] := by
  unfold listUnlink
  induction refs generalizing ps with
  | nil => simp
  | cons pn rest ih =>
    have hpn : pn ∉ rest := (List.nodup_cons.mp hnd).1
    have hrest : rest.Nodup := (List.nodup_cons.mp hnd).2
    rw [List.foldl_cons, ih _ hrest]
    by_cases hq : q ∈ rest
    · have hne : pn ≠ q := fun h => hpn (h ▸ hq)
      rw [if_pos hq, if_pos (List.mem_cons_of_mem _ hq), getD_set_ne _ _ _ _ _ hne]
    · rw [if_neg hq]
      by_cases hqp : q = pn
      · subst hqp
        rw [if_pos (List.mem_cons_self _ _)]
        by_cases hlen : q < ps.length
        · rw [getD_set_self _ _ _ _ hlen]
        · rw [getD_of_le _ _ _ (by simpa [List.length_set] using Nat.le_of_not_lt hlen),
            getD_of_le _ _ _ (Nat.le_of_not_lt hlen)]
          rfl
      · rw [if_neg (by simp [hqp, hq]), getD_set_ne _ _ _ _ _ (fun h => hqp h.symm)]

theorem getD_foldAppend (ps : List (List Nat)) (id : Nat) (refs : List Nat)
    (hnd : refs.Nodup) (hlt : ∀ pn ∈ refs, pn < ps.length) (q : Nat) :
    (refs.foldl (fun acc pn => listAppend acc pn id) ps).getD q [] =
      if q ∈ refs then (ps.getD q []) ++ [id] else ps.getD q [] := by
  induction refs generalizing ps with
  | nil => simp
  | cons pn rest ih =>
    have hpn : pn ∉ rest := (List.nodup_cons.mp hnd).1
    have hrest : rest.Nodup := (List.nodup_cons.mp hnd).2
    rw [List.foldl_cons]
    show (rest.foldl (fun acc pn => listAppend acc pn id) (listAppend ps pn id)).getD q [] = _
    have hlen : (listAppend ps pn id).length = ps.length := List.length_set ..
    rw [ih _ hrest (fun x hx => by rw [hlen]; exact hlt x (List.mem_cons_of_mem _ hx))]
    by_cases hq : q ∈ rest
    · have hne : pn ≠ q := fun h => hpn (h ▸ hq)
      rw [if_pos hq, if_pos (List.mem_cons_of_mem _ hq)]
      unfold listAppend
      rw [getD_set_ne _ _ _ _ _ hne]
    · rw [if_neg hq]
      by_cases hqp : q = pn
      · subst hqp
        rw [if_pos (List.mem_cons_self _ _)]
        unfold listAppend
        exact getD_set_self _ _ _ _ (hlt q (List.mem_cons_self _ _))
      · rw [if_neg (by simp [hqp, hq])]
        unfold listAppend
        rw [getD_set_ne _ _ _ _ _ (fun h => hqp h.symm)]

theorem getD_foldUnlink (st : CacheState) (victims : List Nat) (acc : List (List Nat)) (q : Nat)
    (hnd : ∀ v ∈ victims, (refsOf st v).Nodup) :
    (victims.foldl (fun a id => listUnlink a id (refsOf st id)) acc).getD q [] =
      victims.foldl (fun l v => if q ∈ refsOf st v then l.erase v else l) (acc.getD q []) := by
  induction victims generalizing acc with
  | nil => rfl
  | cons v rest ih =>
    rw [List.foldl_cons, List.foldl_cons,
      ih _ (fun x hx => hnd x (List.mem_cons_of_mem _ hx)),
      getD_listUnlink _ _ _ (hnd v (List.mem_cons_self _ _))]

theorem foldl_eraseIf_congr (victims : List Nat) (l : List Nat) (P : Nat → Prop)
    [DecidablePred P] (h : ∀ v ∈ victims, ¬P v → v ∉ l) :
    victims.foldl (fun l v => if P v then l.erase v else l) l =
      victims.foldl (fun l v => l.erase v) l := by
  induction victims generalizing l with
  | nil => rfl
  | cons v rest ih =>
    rw [List.foldl_cons, List.foldl_cons]
    by_cases hv : P v
    · rw [if_pos hv]
      exact ih _ (fun x hx hPx hmem => h x (List.mem_cons_of_mem _ hx) hPx
        (List.mem_of_mem_erase hmem))
    · rw [if_neg hv, List.erase_of_not_mem (h v (List.mem_cons_self _ _) hv)]
      exact ih _ (fun x hx hPx hmem => h x (List.mem_cons_of_mem _ hx) hPx hmem)

theorem foldl_erase_eq_filter (victims : List Nat) (l : List Nat) (hl : l.Nodup) :
    victims.foldl (fun l v => l.erase v) l = l.filter (fun x => x ∉ victims) := by
  induction victims generalizing l with
  | nil => simp
  | cons v rest ih =>
    rw [List.foldl_cons, ih _ (hl.erase v), List.Nodup.erase_eq_filter hl,
      List.filter_filter]
    refine List.filter_congr ?_
    intro x _
    by_cases hxv : x = v
    · subst hxv
      simp
    · by_cases hxr : x ∈ rest <;> simp [hxv, hxr]

/-! ### The cache well-formedness invariant -/

theorem eq_of_fst_eq {l : List (Nat × Source)} (hnd : (l.map Prod.fst).Nodup)
    {p q : Nat × Source} (hp : p ∈ l) (hq : q ∈ l) (h : p.1 = q.1) : p = q := by
  induction l with
  | nil => cases hp
  | cons a rest ih =>
    rw [List.map_cons, List.nodup_cons] at hnd
    rw [List.mem_cons] at hp hq
    rcases hp with hp | hp <;> rcases hq with hq | hq
    · rw [hp, hq]
    · subst hp
      have hmem : q.1 ∈ List.map Prod.fst rest := List.mem_map_of_mem Prod.fst hq
      rw [← h] at hmem
      exact absurd hmem hnd.1
    · subst hq
      have hmem : p.1 ∈ List.map Prod.fst rest := List.mem_map_of_mem Prod.fst hp
      rw [h] at hmem
      exact absurd hmem hnd.1
    · exact ih hnd.2 hp hq

theorem WF.findSource_eq {st : CacheState} (hwf : WF st) {id : Nat} {s : Source}
    (hp : (id, s) ∈ st.sources) : findSource st id = some s := by
  unfold findSource
  have hsome : (st.sources.find? (fun p => p.1 = id)).isSome := by
    rw [List.find?_isSome]
    exact ⟨(id, s), hp, by simp⟩
  obtain ⟨q, hq⟩ := Option.isSome_iff_exists.mp hsome
  have hqmem : q ∈ st.sources := List.mem_of_find?_eq_some hq
  have hqid : q.1 = id := by simpa using List.find?_some hq
  have : q = (id, s) := eq_of_fst_eq hwf.nodupIds hqmem hp (by simpa using hqid)
  rw [hq, this]
  rfl

theorem WF.mem_pageList_iff {st : CacheState} (hwf : WF st) (pn id : Nat) :
    id ∈ pageList st pn ↔ ∃ s, (id, s) ∈ st.sources ∧ pn ∈ s.pageRefs := by
  rw [hwf.lists]
  constructor
  · intro h
    obtain ⟨p, hpf, hpid⟩ := List.mem_map.mp h
    have hpm := List.mem_filter.mp hpf
    exact ⟨p.2, by rw [← hpid]; exact hpm.1, by simpa using hpm.2⟩
  · rintro ⟨s, hmem, hpn⟩
    exact List.mem_map.mpr ⟨(id, s), List.mem_filter.mpr ⟨hmem, by simpa using hpn⟩, rfl⟩

theorem WF.pageList_nodup {st : CacheState} (hwf : WF st) (pn : Nat) :
    (pageList st pn).Nodup := by
  rw [hwf.lists]
  exact ((List.filter_sublist st.sources).map Prod.fst).nodup hwf.nodupIds

theorem WF.refsOf_eq {st : CacheState} (hwf : WF st) {id : Nat} {s : Source}
    (hp : (id, s) ∈ st.sources) : refsOf st id = s.pageRefs := by
  unfold refsOf
  rw [hwf.findSource_eq hp]

theorem filter_comm' (l : List (Nat × Source)) (p q : (Nat × Source) → Bool) :
    (l.filter p).filter q = (l.filter q).filter p := by
  rw [List.filter_filter, List.filter_filter]
  exact List.filter_congr (fun a _ => Bool.and_comm _ _)

theorem map_fst_filter (l : List (Nat × Source)) (pred : Nat → Bool) :
    (l.filter (fun p => pred p.1)).map Prod.fst = (l.map Prod.fst).filter pred := by
  induction l with
  | nil => rfl
  | cons a rest ih =>
    by_cases h : pred a.1 <;> simp [List.filter_cons, h, ih]

theorem WF_initState : WF initState := by
  refine ⟨?_, ?_, ?_, ?_, ?_, ?_, ?_⟩
  · exact List.length_replicate ..
  · intro p hp
    cases hp
  · exact List.nodup_nil
  · intro p hp
    cases hp
  · intro p hp
    cases hp
  · intro p hp
    cases hp
  · intro pn
    show (List.replicate NUM_PAGES ([] : List Nat)).getD pn [] = _
    rcases Nat.lt_or_ge pn NUM_PAGES with h | h
    · rw [List.getD_eq_getElem _ _ (by simpa using h)]
      simp [initState]
    · rw [getD_of_le _ _ _ (by simpa using h)]
      rfl

theorem WF_invalidatePage {st : CacheState} (hwf : WF st) (pn : Nat) :
    WF (invalidatePage st pn) := by
  have hsrc : (invalidatePage st pn).sources
      = st.sources.filter (fun p => p.1 ∉ pageList st pn) := rfl
  have hnext : (invalidatePage st pn).nextId = st.nextId := rfl
  have hps : (invalidatePage st pn).pageSources
      = ((pageList st pn).foldl (fun acc id => listUnlink acc id (refsOf st id))
          st.pageSources).set pn [] := rfl
  have hvic_iff : ∀ p ∈ st.sources, (p.1 ∈ pageList st pn ↔ pn ∈ p.2.pageRefs) := by
    intro p hp
    rw [hwf.mem_pageList_iff]
    constructor
    · rintro ⟨s, hmem, hpns⟩
      have heq : (p.1, s) = p := eq_of_fst_eq hwf.nodupIds hmem hp rfl
      have : s = p.2 := congrArg Prod.snd heq
      rwa [this] at hpns
    · intro h
      exact ⟨p.2, by simpa using hp, h⟩
  have hsrc2 : (invalidatePage st pn).sources
      = st.sources.filter (fun p => pn ∉ p.2.pageRefs) := by
    rw [hsrc]
    exact List.filter_congr (fun p hp =>
      decide_eq_decide.mpr (not_congr (hvic_iff p hp)))
  have hnd_all : ∀ v ∈ pageList st pn, (refsOf st v).Nodup := by
    intro v hv
    obtain ⟨s, hmem, _⟩ := (hwf.mem_pageList_iff pn v).mp hv
    rw [hwf.refsOf_eq hmem, hwf.refsKey (v, s) hmem]
    exact sourcePageRefs_nodup _
  refine ⟨?_, ?_, ?_, ?_, ?_, ?_, ?_⟩
  · rw [hps, List.length_set, length_foldUnlink, hwf.plen]
  · intro p hp
    rw [hsrc] at hp
    rw [hnext]
    exact hwf.idlt p (List.mem_of_mem_filter hp)
  · rw [hsrc]
    exact ((List.filter_sublist st.sources).map Prod.fst).nodup hwf.nodupIds
  · intro p hp
    rw [hsrc] at hp
    exact hwf.refsKey p (List.mem_of_mem_filter hp)
  · intro p hp
    rw [hsrc] at hp
    exact hwf.keyValid p (List.mem_of_mem_filter hp)
  · intro p hp q hq h
    rw [hsrc] at hp hq
    exact hwf.keyUnique p (List.mem_of_mem_filter hp) q (List.mem_of_mem_filter hq) h
  · intro q
    show ((invalidatePage st pn).pageSources).getD q [] = _
    rw [hps]
    by_cases hq : q = pn
    · subst hq
      rw [hsrc2]
      have hnil : (st.sources.filter (fun p => q ∉ p.2.pageRefs)).filter
          (fun p => q ∈ p.2.pageRefs) = [] := by
        rw [List.filter_filter]
        have : ∀ a ∈ st.sources,
            ((fun p => decide (q ∈ p.2.pageRefs)) a && (fun p => decide (q ∉ p.2.pageRefs)) a)
              = (fun _ => false) a := by
          intro a _
          by_cases h : q ∈ a.2.pageRefs <;> simp [h]
        rw [List.filter_congr this, List.filter_false]
      rw [hnil]
      rcases Nat.lt_or_ge q (((pageList st q).foldl
          (fun acc id => listUnlink acc id (refsOf st id)) st.pageSources).length) with h | h
      · rw [getD_set_self _ _ _ _ h]
        rfl
      · rw [getD_of_le _ _ _ (by simpa [List.length_set] using h)]
        rfl
    · rw [hsrc]
      rw [getD_set_ne _ _ _ _ _ (fun h => hq h.symm),
        getD_foldUnlink st _ _ _ hnd_all]
      have hstep : (pageList st pn).foldl
          (fun l v => if q ∈ refsOf st v then l.erase v else l) (st.pageSources.getD q [])
          = (pageList st pn).foldl (fun l v => l.erase v) (pageList st q) := by
        show (pageList st pn).foldl
          (fun l v => if q ∈ refsOf st v then l.erase v else l) (pageList st q) = _
        refine foldl_eraseIf_congr _ _ _ ?_
        intro v hv hnq hvq
        obtain ⟨s', hmem', hq'⟩ := (hwf.mem_pageList_iff q v).mp hvq
        rw [hwf.refsOf_eq hmem'] at hnq
        exact hnq hq'
      rw [hstep, foldl_erase_eq_filter _ _ (hwf.pageList_nodup q), filter_comm',
        map_fst_filter (st.sources.filter (fun p => decide (q ∈ p.2.pageRefs)))
          (fun x => decide (x ∉ pageList st pn)),
        ← hwf.lists q]

theorem WF_createSource {st : CacheState} (hwf : WF st) (key : SourceKey)
    (hkey : key.page < NUM_PAGES)
    (hnone : ∀ p ∈ st.sources, p.2.key ≠ key) :
    WF (createSource st key true).2 := by
  have hsrc : (createSource st key true).2.sources
      = st.sources ++ [(st.nextId, ⟨key, sourcePageRefs key⟩)] := rfl
  have hnext : (createSource st key true).2.nextId = st.nextId + 1 := rfl
  have hps : (createSource st key true).2.pageSources
      = (sourcePageRefs key).foldl (fun acc pn => listAppend acc pn st.nextId)
          st.pageSources := rfl
  refine ⟨?_, ?_, ?_, ?_, ?_, ?_, ?_⟩
  · rw [hps, length_foldAppend, hwf.plen]
  · intro p hp
    rw [hsrc] at hp
    rw [hnext]
    rcases List.mem_append.mp hp with hp | hp
    · exact Nat.lt_succ_of_lt (hwf.idlt p hp)
    · rw [List.mem_singleton.mp hp]
      exact Nat.lt_succ_self _
  · rw [hsrc, List.map_append]
    refine List.Nodup.append hwf.nodupIds (List.nodup_singleton _) ?_
    intro a h1 h2
    simp only [List.map_cons, List.map_nil, List.mem_singleton] at h2
    obtain ⟨p, hp, hpa⟩ := List.mem_map.mp h1
    have := hwf.idlt p hp
    omega
  · intro p hp
    rw [hsrc] at hp
    rcases List.mem_append.mp hp with hp | hp
    · exact hwf.refsKey p hp
    · rw [List.mem_singleton.mp hp]
  · intro p hp
    rw [hsrc] at hp
    rcases List.mem_append.mp hp with hp | hp
    · exact hwf.keyValid p hp
    · rw [List.mem_singleton.mp hp]
      exact hkey
  · intro p hp q hq h
    rw [hsrc] at hp hq
    rcases List.mem_append.mp hp with hp | hp <;> rcases List.mem_append.mp hq with hq | hq
    · exact hwf.keyUnique p hp q hq h
    · rw [List.mem_singleton.mp hq] at h
      exact absurd h (hnone p hp)
    · rw [List.mem_singleton.mp hp] at h
      exact absurd h.symm (hnone q hq)
    · rw [List.mem_singleton.mp hp, List.mem_singleton.mp hq]
  · intro q
    show ((sourcePageRefs key).foldl (fun acc pn => listAppend acc pn st.nextId)
        st.pageSources).getD q [] = _
    rw [hsrc, getD_foldAppend _ _ _ (sourcePageRefs_nodup key)
        (fun pn hpn => by rw [hwf.plen]; exact sourcePageRefs_lt hkey pn hpn),
      List.filter_append, List.map_append]
    by_cases hqr : q ∈ sourcePageRefs key
    · rw [if_pos hqr]
      have : ([(st.nextId, (⟨key, sourcePageRefs key⟩ : Source))].filter
          (fun p => q ∈ p.2.pageRefs)) = [(st.nextId, ⟨key, sourcePageRefs key⟩)] := by
        simp [List.filter_cons, hqr]
      rw [this, ← hwf.lists q]
      rfl
    · rw [if_neg hqr]
      have : ([(st.nextId, (⟨key, sourcePageRefs key⟩ : Source))].filter
          (fun p => q ∈ p.2.pageRefs)) = [] := by
        simp [List.filter_cons, hqr]
      rw [this, ← hwf.lists q, List.map_nil, List.append_nil]
      rfl

theorem scanPage_none_key_absent {st : CacheState} (hwf : WF st) {key : SourceKey}
    (hscan : scanPage st key = none) :
    ∀ p ∈ st.sources, p.2.key ≠ key := by
  intro p hp hkeyp
  have hpage : key.page ∈ p.2.pageRefs := by
    rw [hwf.refsKey p hp, hkeyp]
    exact mem_sourcePageRefs_self key
  have hmem : p.1 ∈ pageList st key.page :=
    (hwf.mem_pageList_iff _ _).mpr ⟨p.2, by simpa using hp, hpage⟩
  have hfind := List.find?_eq_none.mp hscan p.1 hmem
  apply hfind
  have hfs : findSource st p.1 = some p.2 := hwf.findSource_eq (by simpa using hp)
  show (match findSource st p.1 with
    | some s => decide (s.key = key)
    | none => false) = true
  rw [hfs]
  simpa using hkeyp

theorem WF_lookupSource {st : CacheState} (hwf : WF st) (key : SourceKey)
    (hkey : key.page < NUM_PAGES) (ok : Bool) :
    WF (lookupSource st key ok).2 := by
  unfold lookupSource
  cases hscan : scanPage st key with
  | some id => exact hwf
  | none =>
    cases ok with
    | false => exact hwf
    | true => exact WF_createSource hwf key hkey (scanPage_none_key_absent hwf hscan)

theorem find?_eq_of_unique {l : List Nat} {pred : Nat → Bool} {id : Nat}
    (hmem : id ∈ l) (hid : pred id = true)
    (huniq : ∀ x ∈ l, pred x = true → x = id) :
    l.find? pred = some id := by
  induction l with
  | nil => cases hmem
  | cons a rest ih =>
    by_cases ha : pred a = true
    · rw [List.find?_cons_of_pos _ ha, huniq a (List.mem_cons_self _ _) ha]
    · rw [List.find?_cons_of_neg _ (by simpa using ha)]
      refine ih ?_ (fun x hx hpx => huniq x (List.mem_cons_of_mem _ hx) hpx)
      rcases List.mem_cons.mp hmem with h | h
      · exact absurd (h ▸ hid) ha
      · exact h

theorem findSource_some_mem {st : CacheState} {id : Nat} {s : Source}
    (h : findSource st id = some s) : (id, s) ∈ st.sources := by
  unfold findSource at h
  obtain ⟨q, hq, hqs⟩ := Option.map_eq_some'.mp h
  have hqmem := List.mem_of_find?_eq_some hq
  have hqid : q.1 = id := by simpa using List.find?_some hq
  have : q = (id, s) := by
    rw [← hqid, ← hqs]
  rw [← this]
  exact hqmem

theorem scanPage_some {st : CacheState} {key : SourceKey} {id : Nat}
    (h : scanPage st key = some id) :
    id ∈ pageList st key.page ∧ ∃ s, findSource st id = some s ∧ s.key = key := by
  refine ⟨List.mem_of_find?_eq_some h, ?_⟩
  have hpred := List.find?_some h
  cases hfs : findSource st id with
  | none =>
    rw [hfs] at hpred
    simp at hpred
  | some s =>
    rw [hfs] at hpred
    simp at hpred
    exact ⟨s, rfl, hpred⟩

theorem lookupSource_some_mem {st : CacheState} {key : SourceKey} {ok : Bool}
    {id : Nat} {st' : CacheState}
    (h : lookupSource st key ok = (some id, st')) :
    ∃ s, (id, s) ∈ st'.sources ∧ s.key = key := by
  cases hscan : scanPage st key with
  | some j =>
    have h2 : ((some j : Option Nat), st) = (some id, st') := by
      rw [← h]
      unfold lookupSource
      rw [hscan]
    have hid : j = id := by simpa using congrArg Prod.fst h2
    have hst : st = st' := congrArg Prod.snd h2
    obtain ⟨_, s, hfs, hkeys⟩ := scanPage_some hscan
    exact ⟨s, by rw [← hst, ← hid]; exact findSource_some_mem hfs, hkeys⟩
  | none =>
    have h1 : createSource st key ok = (some id, st') := by
      rw [← h]
      unfold lookupSource
      rw [hscan]
    cases ok with
    | false =>
      have h2 : ((none : Option Nat), st) = (some id, st') := h1
      cases (congrArg Prod.fst h2)
    | true =>
      have h2 : ((some st.nextId : Option Nat),
          (⟨st.nextId + 1, st.sources ++ [(st.nextId, ⟨key, sourcePageRefs key⟩)],
            (sourcePageRefs key).foldl (fun acc pn => listAppend acc pn st.nextId)
              st.pageSources⟩ : CacheState)) = (some id, st') := h1
      have hid : st.nextId = id := by simpa using congrArg Prod.fst h2
      have hst : (⟨st.nextId + 1, st.sources ++ [(st.nextId, ⟨key, sourcePageRefs key⟩)],
          (sourcePageRefs key).foldl (fun acc pn => listAppend acc pn st.nextId)
            st.pageSources⟩ : CacheState) = st' := congrArg Prod.snd h2
      refine ⟨⟨key, sourcePageRefs key⟩, ?_, rfl⟩
      rw [← hst]
      show (id, _) ∈ st.sources ++ [(st.nextId, _)]
      rw [← hid]
      exact List.mem_append_right _ (List.mem_singleton_self _)

theorem survives_invalidations {st : CacheState} {id : Nat} {s : Source}
    (hwf : WF st) (hmem : (id, s) ∈ st.sources)
    (pns : List Nat) (hnt : ∀ pn ∈ pns, pn ∉ s.pageRefs) :
    WF (pns.foldl invalidatePage st) ∧ (id, s) ∈ (pns.foldl invalidatePage st).sources := by
  induction pns generalizing st with
  | nil => exact ⟨hwf, hmem⟩
  | cons pn rest ih =>
    rw [List.foldl_cons]
    refine ih (WF_invalidatePage hwf pn) ?_ (fun x hx => hnt x (List.mem_cons_of_mem _ hx))
    show (id, s) ∈ st.sources.filter (fun p => p.1 ∉ pageList st pn)
    refine List.mem_filter.mpr ⟨hmem, ?_⟩
    simp only [decide_eq_true_eq]
    intro hid
    obtain ⟨s', hmem', hpn'⟩ := (hwf.mem_pageList_iff pn id).mp hid
    have heq : (id, s') = (id, s) := eq_of_fst_eq hwf.nodupIds hmem' hmem rfl
    rw [show s' = s from congrArg Prod.snd heq] at hpn'
    exact hnt pn (List.mem_cons_self _ _) hpn'

/-! ### The claims -/

/-- C1: the claim says `InvalidatePages(rect)` invalidates exactly the
covering set of pages of the rectangle, so that keys whose dependency pages
intersect the rectangle decode fresh afterwards.  The code does not: in
`LoopPages` the callback is invoked with `page_number`, which never advances
within a row (the incremented `y_page_number` is unused), so for the
rectangle (0,0,128,1) — whose covering set is pages {0,1} — the code
invalidates page 0 twice and page 1 never.  A `Direct16Bit` source on page 1
therefore survives `InvalidatePages(0,0,128,1)` and the next lookup returns
it stale (the lookup below passes `allocOk = false`, so the hit cannot have
come from a fresh decode). -/
theorem C1_invalidatePages_misses_covered_page :
    CoveringPagesList 0 0 128 1 = [0, 1] ∧
    LoopPagesList 0 0 128 1 = [0, 0] ∧
    (lookupSource initState ⟨1, .Direct16Bit, ⟨0⟩⟩ true).1 = some 0 ∧
    lookupSource
        (invalidatePages ((lookupSource initState ⟨1, .Direct16Bit, ⟨0⟩⟩ true).2) 0 0 128 1)
        ⟨1, .Direct16Bit, ⟨0⟩⟩ false
      = (some 0,
          invalidatePages ((lookupSource initState ⟨1, .Direct16Bit, ⟨0⟩⟩ true).2) 0 0 128 1) := by
  decide

/-- C2: the claim says every source is listed in exactly the pages of its
pixel+palette footprint.  Because `LoopPages` only ever passes the first
page of each row (see C1), a `Direct16Bit` source for page 0 — whose pixel
footprint is 256 pixels wide and covers pages {0,1,2,3} — is registered
under page 0 only. -/
theorem C2_pageRefs_footprint_mismatch :
    sourcePageRefs ⟨0, .Direct16Bit, ⟨0⟩⟩ = [0] ∧
    specSourcePages ⟨0, .Direct16Bit, ⟨0⟩⟩ = [0, 1, 2, 3] ∧
    sourcePageRefs ⟨0, .Direct16Bit, ⟨0⟩⟩ ≠ specSourcePages ⟨0, .Direct16Bit, ⟨0⟩⟩ := by
  decide

/-- C7: if the device texture allocation fails, `CreateSource` (and hence a
`LookupSource` miss) returns null and leaves the cache state — in
particular every page list — unchanged. -/
theorem C7_alloc_failure_null (st : CacheState) (key : SourceKey) :
    createSource st key false = (none, st) ∧
      (scanPage st key = none → lookupSource st key false = (none, st)) := by
  refine ⟨rfl, ?_⟩
  intro h
  unfold lookupSource
  rw [h]
  rfl

theorem C7_alloc_failure_null_witness :
    scanPage initState ⟨0, .Palette4Bit, ⟨0⟩⟩ = none ∧
      lookupSource initState ⟨0, .Palette4Bit, ⟨0⟩⟩ false = (none, initState) :=
  ⟨by decide, (C7_alloc_failure_null initState ⟨0, .Palette4Bit, ⟨0⟩⟩).2 (by decide)⟩

/-- C9: `InvalidatePage` is idempotent: one call leaves the page's list
empty, and a second consecutive call leaves the entire cache state exactly
as the first left it. -/
theorem C9_invalidatePage_idempotent (st : CacheState) (pn : Nat) :
    pageList (invalidatePage st pn) pn = [] ∧
      invalidatePage (invalidatePage st pn) pn = invalidatePage st pn := by
  have hempty : pageList (invalidatePage st pn) pn = [] := by
    show (((pageList st pn).foldl (fun acc id => listUnlink acc id (refsOf st id))
        st.pageSources).set pn []).getD pn [] = []
    rcases Nat.lt_or_ge pn (((pageList st pn).foldl
        (fun acc id => listUnlink acc id (refsOf st id)) st.pageSources).length) with h | h
    · rw [getD_set_self _ _ _ _ h]
    · rw [getD_of_le _ _ _ (by simpa [List.length_set] using h)]
  refine ⟨hempty, ?_⟩
  have hfilter : (invalidatePage st pn).sources.filter
      (fun p => p.1 ∉ pageList (invalidatePage st pn) pn)
      = (invalidatePage st pn).sources := by
    rw [hempty]
    induction (invalidatePage st pn).sources with
    | nil => rfl
    | cons a rest ih => simp [List.filter_cons, ih]
  have hset : ((pageList (invalidatePage st pn) pn).foldl
      (fun acc id => listUnlink acc id (refsOf (invalidatePage st pn) id))
      (invalidatePage st pn).pageSources).set pn []
      = (invalidatePage st pn).pageSources := by
    rw [hempty, List.foldl_nil]
    exact List.set_set ..
  show ({ nextId := (invalidatePage st pn).nextId,
          sources := (invalidatePage st pn).sources.filter
            (fun p => p.1 ∉ pageList (invalidatePage st pn) pn),
          pageSources := ((pageList (invalidatePage st pn) pn).foldl
            (fun acc id => listUnlink acc id (refsOf (invalidatePage st pn) id))
            (invalidatePage st pn).pageSources).set pn [] } : CacheState)
      = invalidatePage st pn
  rw [hfilter, hset]

/-- C10: every source `CreateSource` builds carries between 1 and
`MAX_PAGE_REFS_PER_SOURCE` page references, the first registered page is the
key's own page, and invalidating that page therefore always destroys the
source. -/
theorem C10_source_page_ref_bounds (st : CacheState) (key : SourceKey)
    (id : Nat) (st' : CacheState)
    (hplen : st.pageSources.length = NUM_PAGES)
    (hkey : key.page < NUM_PAGES)
    (hcr : createSource st key true = (some id, st')) :
    ∃ s, (id, s) ∈ st'.sources ∧
      1 ≤ s.pageRefs.length ∧ s.pageRefs.length ≤ MAX_PAGE_REFS_PER_SOURCE ∧
      s.pageRefs.head? = some key.page ∧ key.page ∈ s.pageRefs ∧
      ∀ p ∈ (invalidatePage st' key.page).sources, p.1 ≠ id := by
  have h2 : ((some st.nextId : Option Nat),
      (⟨st.nextId + 1, st.sources ++ [(st.nextId, ⟨key, sourcePageRefs key⟩)],
        (sourcePageRefs key).foldl (fun acc pn => listAppend acc pn st.nextId)
          st.pageSources⟩ : CacheState)) = (some id, st') := hcr
  have hid : st.nextId = id := by simpa using congrArg Prod.fst h2
  have hst : (⟨st.nextId + 1, st.sources ++ [(st.nextId, ⟨key, sourcePageRefs key⟩)],
      (sourcePageRefs key).foldl (fun acc pn => listAppend acc pn st.nextId)
        st.pageSources⟩ : CacheState) = st' := congrArg Prod.snd h2
  refine ⟨⟨key, sourcePageRefs key⟩, ?_, (sourcePageRefs_length key).1,
    (sourcePageRefs_length key).2, sourcePageRefs_head key, mem_sourcePageRefs_self key, ?_⟩
  · rw [← hst]
    show (id, _) ∈ st.sources ++ [(st.nextId, _)]
    rw [← hid]
    exact List.mem_append_right _ (List.mem_singleton_self _)
  · intro p hp hpid
    have hin : id ∈ pageList st' key.page := by
      rw [← hst, ← hid]
      show st.nextId ∈ ((sourcePageRefs key).foldl (fun acc pn => listAppend acc pn st.nextId)
          st.pageSources).getD key.page []
      rw [getD_foldAppend _ _ _ (sourcePageRefs_nodup key)
          (fun pn hpn => by rw [hplen]; exact sourcePageRefs_lt hkey pn hpn),
        if_pos (mem_sourcePageRefs_self key)]
      exact List.mem_append_right _ (List.mem_singleton_self _)
    have hmem := List.mem_filter.mp
      (show p ∈ st'.sources.filter (fun q => q.1 ∉ pageList st' key.page) from hp)
    have hnot := hmem.2
    simp only [decide_eq_true_eq] at hnot
    rw [hpid] at hnot
    exact hnot hin

theorem C10_source_page_ref_bounds_witness :
    initState.pageSources.length = NUM_PAGES ∧ (0 : Nat) < NUM_PAGES ∧
      ∃ s, (0, s) ∈ (createSource initState ⟨0, .Palette4Bit, ⟨0⟩⟩ true).2.sources ∧
        1 ≤ s.pageRefs.length ∧ s.pageRefs.length ≤ MAX_PAGE_REFS_PER_SOURCE ∧
        s.pageRefs.head? = some (0 : Nat) ∧ (0 : Nat) ∈ s.pageRefs ∧
        ∀ p ∈ (invalidatePage (createSource initState ⟨0, .Palette4Bit, ⟨0⟩⟩ true).2 0).sources,
          p.1 ≠ 0 :=
  ⟨by decide, by decide,
    C10_source_page_ref_bounds initState ⟨0, .Palette4Bit, ⟨0⟩⟩ 0
      (createSource initState ⟨0, .Palette4Bit, ⟨0⟩⟩ true).2 (by decide) (by decide) rfl⟩

/-- C8: whenever `LookupSource` returns a non-null source — by cache hit or
by fresh creation — that source's key is the requested key. -/
theorem C8_lookup_key_match (st : CacheState) (key : SourceKey) (ok : Bool)
    (id : Nat) (st' : CacheState) (hwf : WF st) (hkey : key.page < NUM_PAGES)
    (h : lookupSource st key ok = (some id, st')) :
    ∃ s, findSource st' id = some s ∧ s.key = key := by
  obtain ⟨s, hmem, hkeys⟩ := lookupSource_some_mem h
  have hwf' : WF st' := by
    have hw := WF_lookupSource hwf key hkey ok
    rw [h] at hw
    exact hw
  exact ⟨s, hwf'.findSource_eq hmem, hkeys⟩

theorem C8_lookup_key_match_witness :
    (2 : Nat) < NUM_PAGES ∧
      ∃ s, findSource (lookupSource initState ⟨2, .Palette8Bit, ⟨0⟩⟩ true).2 0 = some s ∧
        s.key = ⟨2, .Palette8Bit, ⟨0⟩⟩ :=
  ⟨by decide,
    C8_lookup_key_match initState ⟨2, .Palette8Bit, ⟨0⟩⟩ true 0
      (lookupSource initState ⟨2, .Palette8Bit, ⟨0⟩⟩ true).2 WF_initState (by decide)
      (by decide)⟩

/-- C3: cache identity: once `LookupSource(K)` has produced a source, any
sequence of page invalidations that avoids K's dependency pages leaves it
cached, and a repeated lookup returns the very same source with the state
unchanged — the repeated lookup below works even with a failing allocator
(`ok'` arbitrary), so no re-decode happens; moreover the cache never holds
two sources with the same key. -/
theorem C3_lookup_cache_identity (st : CacheState) (K : SourceKey) (ok : Bool)
    (id : Nat) (st₁ : CacheState) (pns : List Nat)
    (hwf : WF st) (hK : K.page < NUM_PAGES)
    (hlk : lookupSource st K ok = (some id, st₁))
    (hnt : ∀ pn ∈ pns, pn ∉ sourcePageRefs K) :
    (∀ ok', lookupSource (pns.foldl invalidatePage st₁) K ok'
        = (some id, pns.foldl invalidatePage st₁)) ∧
    (∀ p ∈ (pns.foldl invalidatePage st₁).sources,
      ∀ q ∈ (pns.foldl invalidatePage st₁).sources, p.2.key = q.2.key → p = q) := by
  have hwf₁ : WF st₁ := by
    have hw := WF_lookupSource hwf K hK ok
    rw [hlk] at hw
    exact hw
  obtain ⟨s, hmem, hkeys⟩ := lookupSource_some_mem hlk
  have hrefs : s.pageRefs = sourcePageRefs K := by
    have h1 := hwf₁.refsKey (id, s) hmem
    rw [hkeys] at h1
    exact h1
  obtain ⟨hwf₂, hmem₂⟩ := survives_invalidations hwf₁ hmem pns (by rw [hrefs]; exact hnt)
  constructor
  · intro ok'
    have hscan : scanPage (pns.foldl invalidatePage st₁) K = some id := by
      unfold scanPage
      apply find?_eq_of_unique
      · refine (hwf₂.mem_pageList_iff _ _).mpr ⟨s, hmem₂, ?_⟩
        rw [hrefs]
        exact mem_sourcePageRefs_self K
      · show (match findSource (pns.foldl invalidatePage st₁) id with
          | some s => decide (s.key = K)
          | none => false) = true
        rw [hwf₂.findSource_eq hmem₂]
        simpa using hkeys
      · intro x hx hpx
        have hpx' : (match findSource (pns.foldl invalidatePage st₁) x with
          | some s => decide (s.key = K)
          | none => false) = true := hpx
        obtain ⟨sx, hmemx, hkx⟩ : ∃ sx, (x, sx) ∈ (pns.foldl invalidatePage st₁).sources
            ∧ sx.key = K := by
          cases hfs : findSource (pns.foldl invalidatePage st₁) x with
          | none =>
            rw [hfs] at hpx'
            simp at hpx'
          | some sx =>
            rw [hfs] at hpx'
            simp at hpx'
            exact ⟨sx, findSource_some_mem hfs, hpx'⟩
        have heq := hwf₂.keyUnique (x, sx) hmemx (id, s) hmem₂ (by rw [hkx, hkeys])
        simpa using congrArg Prod.fst heq
    unfold lookupSource
    rw [hscan]
  · exact fun p hp q hq h => hwf₂.keyUnique p hp q hq h

theorem C3_lookup_cache_identity_witness :
    (0 : Nat) < NUM_PAGES ∧
    lookupSource initState ⟨0, .Palette4Bit, ⟨0⟩⟩ true
      = (some 0, (lookupSource initState ⟨0, .Palette4Bit, ⟨0⟩⟩ true).2) ∧
    (∀ pn ∈ [5], pn ∉ sourcePageRefs ⟨0, .Palette4Bit, ⟨0⟩⟩) ∧
    (∀ ok', lookupSource
        ([5].foldl invalidatePage (lookupSource initState ⟨0, .Palette4Bit, ⟨0⟩⟩ true).2)
        ⟨0, .Palette4Bit, ⟨0⟩⟩ ok'
      = (some 0,
          [5].foldl invalidatePage (lookupSource initState ⟨0, .Palette4Bit, ⟨0⟩⟩ true).2)) :=
  ⟨by decide, by decide, by decide,
    (C3_lookup_cache_identity initState ⟨0, .Palette4Bit, ⟨0⟩⟩ true 0
      (lookupSource initState ⟨0, .Palette4Bit, ⟨0⟩⟩ true).2 [5] WF_initState (by decide)
      (by decide) (by decide)).1⟩

theorem take_drop_flatMap_range' (f : Nat → List Nat) (c : Nat)
    (hc : ∀ j, (f j).length = c) :
    ∀ (n s k : Nat), k < n →
      (((List.range' s n).flatMap f).drop (c * k)).take c = f (s + k) := by
  intro n
  induction n with
  | zero => intro s k hk; exact absurd hk (Nat.not_lt_zero k)
  | succ m ih =>
    intro s k hk
    rw [List.range'_succ s m 1, List.flatMap_cons]
    cases k with
    | zero =>
      rw [Nat.mul_zero, List.drop_zero, Nat.add_zero, ← hc s, List.take_left]
      rw [Nat.add_zero]
    | succ j =>
      have hmul : c * (j + 1) = (f s).length + c * j := by rw [hc s]; ring
      rw [hmul, List.drop_append, ih (s + 1) j (by omega)]
      congr 1
      omega

/-- C4: the three decode loops map source words to texels as the spec says:
in 4-bit mode each 16-bit word yields four texels by nibble-indexed palette
lookup, low nibble first; in 8-bit mode each word yields two texels by
byte-indexed lookup, low byte first; in 16-bit mode texels copy 1:1 through
the colour conversion; and, concretely, a page filled entirely with palette
index 0 in 4-bit mode with palette entry 0 = 0x8000 decodes to
RGBA(0,0,0,255) (packed 0xFF000000) at every texel. -/
theorem C4_decode_modes :
    (∀ (vram : VRAM) (rowBase palBase k : Nat), k < TEXTURE_PAGE_WIDTH / 4 →
      ((decodeRow4 vram rowBase palBase).drop (4 * k)).take 4 =
        [VRAMRGBA5551ToRGBA8888 (vram (palBase + (vram (rowBase + k) &&& 0x0F))),
         VRAMRGBA5551ToRGBA8888 (vram (palBase + ((vram (rowBase + k) >>> 4) &&& 0x0F))),
         VRAMRGBA5551ToRGBA8888 (vram (palBase + ((vram (rowBase + k) >>> 8) &&& 0x0F))),
         VRAMRGBA5551ToRGBA8888 (vram (palBase + (vram (rowBase + k) >>> 12)))]) ∧
    (∀ (vram : VRAM) (rowBase palBase k : Nat), k < TEXTURE_PAGE_WIDTH / 2 →
      ((decodeRow8 vram rowBase palBase).drop (2 * k)).take 2 =
        [VRAMRGBA5551ToRGBA8888 (vram (palBase + (vram (rowBase + k) &&& 0xFF))),
         VRAMRGBA5551ToRGBA8888 (vram (palBase + (vram (rowBase + k) >>> 8)))]) ∧
    (∀ (vram : VRAM) (rowBase x : Nat), x < TEXTURE_PAGE_WIDTH →
      (decodeRow16 vram rowBase).getD x 0 = VRAMRGBA5551ToRGBA8888 (vram (rowBase + x))) ∧
    (∀ row ∈ DecodeTexture testVRAM 0 testPalette .Palette4Bit,
      ∀ t ∈ row, t = 0xFF000000) := by
  refine ⟨?_, ?_, ?_, ?_⟩
  · intro vram rowBase palBase k hk
    unfold decodeRow4
    rw [List.range_eq_range']
    have h := take_drop_flatMap_range'
      (fun k =>
        [VRAMRGBA5551ToRGBA8888 (vram (palBase + (vram (rowBase + k) &&& 0x0F))),
         VRAMRGBA5551ToRGBA8888 (vram (palBase + ((vram (rowBase + k) >>> 4) &&& 0x0F))),
         VRAMRGBA5551ToRGBA8888 (vram (palBase + ((vram (rowBase + k) >>> 8) &&& 0x0F))),
         VRAMRGBA5551ToRGBA8888 (vram (palBase + (vram (rowBase + k) >>> 12)))])
      4 (fun _ => rfl) (TEXTURE_PAGE_WIDTH / 4) 0 k hk
    rw [Nat.zero_add] at h
    exact h
  · intro vram rowBase palBase k hk
    unfold decodeRow8
    rw [List.range_eq_range']
    have h := take_drop_flatMap_range'
      (fun k =>
        [VRAMRGBA5551ToRGBA8888 (vram (palBase + (vram (rowBase + k) &&& 0xFF))),
         VRAMRGBA5551ToRGBA8888 (vram (palBase + (vram (rowBase + k) >>> 8)))])
      2 (fun _ => rfl) (TEXTURE_PAGE_WIDTH / 2) 0 k hk
    rw [Nat.zero_add] at h
    exact h
  · intro vram rowBase x hx
    unfold decodeRow16
    rw [List.getD_eq_getElem _ _ (by simpa using hx)]
    simp
  · intro row hrow t ht
    have hDT : DecodeTexture testVRAM 0 testPalette .Palette4Bit
        = DecodeTexture4 testVRAM 0 262144 := rfl
    rw [hDT] at hrow
    obtain ⟨y, hy, hrw⟩ := List.mem_map.mp hrow
    rw [List.mem_range] at hy
    rw [← hrw] at ht
    unfold decodeRow4 at ht
    rw [List.mem_flatMap] at ht
    obtain ⟨k, hk, hmem⟩ := ht
    rw [List.mem_range] at hk
    have hword : testVRAM (0 + y * VRAM_WIDTH + k) = 0 := by
      have hne : 0 + y * VRAM_WIDTH + k ≠ 262144 := by
        simp only [VRAM_WIDTH, TEXTURE_PAGE_WIDTH, TEXTURE_PAGE_HEIGHT] at *
        omega
      show (if 0 + y * VRAM_WIDTH + k = 262144 then 0x8000 else 0) = 0
      rw [if_neg hne]
    have hall :
        [VRAMRGBA5551ToRGBA8888 (testVRAM (262144 + (testVRAM (0 + y * VRAM_WIDTH + k) &&& 0x0F))),
         VRAMRGBA5551ToRGBA8888
           (testVRAM (262144 + ((testVRAM (0 + y * VRAM_WIDTH + k) >>> 4) &&& 0x0F))),
         VRAMRGBA5551ToRGBA8888
           (testVRAM (262144 + ((testVRAM (0 + y * VRAM_WIDTH + k) >>> 8) &&& 0x0F))),
         VRAMRGBA5551ToRGBA8888 (testVRAM (262144 + (testVRAM (0 + y * VRAM_WIDTH + k) >>> 12)))]
        = [0xFF000000, 0xFF000000, 0xFF000000, 0xFF000000] := by
      rw [hword]
      decide
    rw [show (262144 : Nat) = 262144 from rfl] at hall
    have hmem' : t ∈ [(0xFF000000 : Nat), 0xFF000000, 0xFF000000, 0xFF000000] := by
      rw [← hall]
      exact hmem
    simpa using hmem'

theorem C4_decode_modes_witness :
    (3 : Nat) < TEXTURE_PAGE_WIDTH / 4 ∧
      ((decodeRow4 testVRAM 0 0).drop (4 * 3)).take 4 =
        [VRAMRGBA5551ToRGBA8888 (testVRAM (0 + (testVRAM (0 + 3) &&& 0x0F))),
         VRAMRGBA5551ToRGBA8888 (testVRAM (0 + ((testVRAM (0 + 3) >>> 4) &&& 0x0F))),
         VRAMRGBA5551ToRGBA8888 (testVRAM (0 + ((testVRAM (0 + 3) >>> 8) &&& 0x0F))),
         VRAMRGBA5551ToRGBA8888 (testVRAM (0 + (testVRAM (0 + 3) >>> 12)))] :=
  ⟨by decide, C4_decode_modes.1 testVRAM 0 0 3 (by decide)⟩

end GPUTextureCache

namespace GPU_HW

/-- C5: with texturing on, any blending on, and no dual-source-blend support,
the batch needs two-pass rendering and the flush issues exactly the two
passes `OnlyOpaque` then `OnlyTransparent`; concretely, for
background-minus-foreground blending with texturing on a device without
dual-source blend, the batch's resolved render mode is `TransparentAndOpaque`
and it is split into those two draws rather than one. -/
theorem C5_two_pass_rendering (batch : BatchConfig) (dual : Bool) :
    (batch.texture_mode ≠ .Disabled → batch.transparency_mode ≠ .Disabled → dual = false →
      NeedsTwoPassRendering batch dual = true ∧
      drawPasses batch dual = [.OnlyOpaque, .OnlyTransparent]) ∧
    (batch.texture_mode ≠ .Disabled →
      batch.transparency_mode = .BackgroundMinusForeground → dual = false →
      batch.GetRenderMode = .TransparentAndOpaque ∧
      NeedsTwoPassRendering batch dual = true ∧
      drawPasses batch dual = [.OnlyOpaque, .OnlyTransparent] ∧
      (drawPasses batch dual).length = 2) := by
  have key : ∀ (b : BatchConfig), b.texture_mode ≠ .Disabled →
      b.transparency_mode ≠ .Disabled →
      NeedsTwoPassRendering b false = true ∧
      drawPasses b false = [.OnlyOpaque, .OnlyTransparent] := by
    intro b ht htr
    have h2 : NeedsTwoPassRendering b false = true := by
      unfold NeedsTwoPassRendering
      simp [bne_iff_ne, ht, htr]
    exact ⟨h2, by simp [drawPasses, h2]⟩
  constructor
  · intro ht htr hd
    subst hd
    exact key batch ht htr
  · intro ht htr hd
    subst hd
    have hne : batch.transparency_mode ≠ GPUTransparencyMode.Disabled := by
      rw [htr]
      intro hcon
      cases hcon
    obtain ⟨h2, hp⟩ := key batch ht hne
    refine ⟨?_, h2, hp, by rw [hp]; rfl⟩
    unfold BatchConfig.GetRenderMode
    rw [if_neg hne]

theorem C5_two_pass_rendering_witness :
    (({ texture_mode := .Palette4Bit, transparency_mode := .BackgroundMinusForeground } :
        BatchConfig).texture_mode ≠ .Disabled) ∧
    (({ texture_mode := .Palette4Bit, transparency_mode := .BackgroundMinusForeground } :
        BatchConfig).transparency_mode = .BackgroundMinusForeground) ∧
    (({ texture_mode := .Palette4Bit, transparency_mode := .BackgroundMinusForeground } :
        BatchConfig).GetRenderMode = .TransparentAndOpaque ∧
      NeedsTwoPassRendering
        { texture_mode := .Palette4Bit, transparency_mode := .BackgroundMinusForeground }
        false = true ∧
      drawPasses
        { texture_mode := .Palette4Bit, transparency_mode := .BackgroundMinusForeground }
        false = [.OnlyOpaque, .OnlyTransparent] ∧
      (drawPasses
        { texture_mode := .Palette4Bit, transparency_mode := .BackgroundMinusForeground }
        false).length = 2) :=
  ⟨by decide, by decide,
    (C5_two_pass_rendering
      { texture_mode := .Palette4Bit, transparency_mode := .BackgroundMinusForeground }
      false).2 (by decide) (by decide) rfl⟩

/-- C6: the synthetic mask-bit depth is `1 - counter/65535`; it lies in
[0,1] for every counter value in [0, 65535], it is strictly antitone in the
counter, and across a reset-free sequence of primitives (whose counter
advances by one per primitive) the depth written is strictly decreasing. -/
theorem C6_depth_normalization :
    (∀ c : Nat, c ≤ 65535 →
      0 ≤ GetCurrentNormalizedVertexDepth c ∧ GetCurrentNormalizedVertexDepth c ≤ 1) ∧
    (∀ c₁ c₂ : Nat, c₁ < c₂ →
      GetCurrentNormalizedVertexDepth c₂ < GetCurrentNormalizedVertexDepth c₁) ∧
    (∀ c0 n m : Nat, n < m → depthOfPrimitive c0 m < depthOfPrimitive c0 n) := by
  have hmono : ∀ c₁ c₂ : Nat, c₁ < c₂ →
      GetCurrentNormalizedVertexDepth c₂ < GetCurrentNormalizedVertexDepth c₁ := by
    intro c₁ c₂ h
    unfold GetCurrentNormalizedVertexDepth
    have hc : (c₁ : ℚ) < (c₂ : ℚ) := by exact_mod_cast h
    have hdiv : (c₁ : ℚ) / 65535 < (c₂ : ℚ) / 65535 := by gcongr
    linarith
  refine ⟨?_, hmono, ?_⟩
  · intro c hc
    unfold GetCurrentNormalizedVertexDepth
    constructor
    · have h1 : (c : ℚ) / 65535 ≤ 1 := by
        rw [div_le_one (by norm_num)]
        exact_mod_cast hc
      linarith
    · have h0 : (0 : ℚ) ≤ (c : ℚ) / 65535 := by positivity
      linarith
  · intro c0 n m h
    unfold depthOfPrimitive
    exact hmono _ _ (by omega)

theorem C6_depth_normalization_witness :
    (3 : Nat) ≤ 65535 ∧
      (0 ≤ GetCurrentNormalizedVertexDepth 3 ∧ GetCurrentNormalizedVertexDepth 3 ≤ 1) ∧
      (2 : Nat) < 7 ∧
      GetCurrentNormalizedVertexDepth 7 < GetCurrentNormalizedVertexDepth 2 ∧
      (0 : Nat) < 1 ∧ depthOfPrimitive 5 1 < depthOfPrimitive 5 0 :=
  ⟨by decide, C6_depth_normalization.1 3 (by decide), by decide,
    C6_depth_normalization.2.1 2 7 (by decide), by decide,
    C6_depth_normalization.2.2 5 0 1 (by decide)⟩

end GPU_HW

end DuckStation
